import Mathlib

/-!
Shallow embedding of src/ragflow_uploader.py (class RAGFlowUploader and main),
with theorems settling the specification claims about it.

Modelling conventions:
- Remote calls are modelled by oracles stored in a Dataset / Rag structure:
  a listing call returns either a list of documents, a TypeError
  (the capability-mismatch signal for unsupported paging parameters), or
  another exception; an upload call for batch number i succeeds iff the
  oracle uploadOk i is true.
- File bytes are a list of naturals; a file whose content field is none is a
  file whose open/read raises.
- Python dicts keyed by strings are modelled as association lists with
  Python insertion semantics (update in place if the key exists, else append).
- Each function additionally records the remote calls it makes (a trace),
  so that claims about which calls are or are not issued can be stated.
-/

/-- Remote document as seen by the reconciler: an id plus the optional
name and display_name attributes read via getattr in the source. -/
structure RemoteDoc where
  id : String
  name : Option String
  display_name : Option String
deriving DecidableEq, Repr

/-- Result of a remote listing call: a document list, a TypeError
(paging parameters not accepted), or some other exception. -/
inductive ListResult (α : Type) where
  | ok : List α → ListResult α
  | typeError : ListResult α
  | err : ListResult α
deriving DecidableEq, Repr

/-- Name resolution for a remote document, from line 148/160 of the source:
getattr name, else getattr display_name, else an unknown_id placeholder. -/
def docName (d : RemoteDoc) : String :=
  match d.name with
  | some n => n
  | none =>
    match d.display_name with
    | some n => n
    | none => "unknown_" ++ d.id

/-- Behaviour of one dataset (knowledge base) object: the paginated listing
call, the unpaginated listing call, the per-batch-number upload outcome, and
the parse-trigger outcome. -/
structure Dataset where
  listPaged : Nat → Nat → ListResult RemoteDoc
  listAll : ListResult RemoteDoc
  uploadOk : Nat → Bool
  parseOk : Bool

/-- One remote call made by get_existing_documents. -/
inductive RemoteCall where
  | paged : Nat → Nat → RemoteCall
  | unpaged : RemoteCall
deriving DecidableEq, Repr

/-- Python dict insert for a string-keyed dict kept as an association list:
overwrite in place when the key exists, else append at the end. -/
def dictInsert (d : List (String × RemoteDoc)) (k : String) (v : RemoteDoc) :
    List (String × RemoteDoc) :=
  if d.any (fun p => p.1 == k) then
    d.map (fun p => if p.1 == k then (k, v) else p)
  else d ++ [(k, v)]

/-- Insert every document of a page into the dict, keyed by docName,
as the for-loops at lines 147-150 and 158-162 of the source do. -/
def insertAll (acc : List (String × RemoteDoc)) (docs : List RemoteDoc) :
    List (String × RemoteDoc) :=
  docs.foldl (fun a d => dictInsert a (docName d) d) acc

/-- Keys of a dict, in insertion order. -/
def dictKeys (d : List (String × RemoteDoc)) : List String :=
  d.map Prod.fst

/-- Result of get_existing_documents: the dict built, the remote calls made,
whether the 1000-page warning fired, and whether the outer except handler ran
(in which case the function returned an empty dict). -/
structure GEDResult where
  docs : List (String × RemoteDoc)
  trace : List RemoteCall
  warned : Bool
  erred : Bool
deriving Repr

/-- The while loop of get_existing_documents (lines 136-174 of the source).
The fuel argument is a structural-recursion device only: the top-level entry
supplies fuel 1000 at page 1 and the loop body itself stops as soon as
page + 1 > 1000, so the fuel-0 branch is never reached from the entry point.
One iteration: issue the paginated call; on TypeError issue the single
unpaginated call, map its full result and stop; on another exception return
an empty dict (outer except handler); on a page of documents stop if the
page is empty, else map it, stop if it is short, else advance the page,
stopping with a warning once the next page number would exceed 1000. -/
def gedLoop (ds : Dataset) :
    Nat → Nat → List (String × RemoteDoc) → List RemoteCall → GEDResult
  | 0, _, acc, trace => ⟨acc, trace, true, false⟩
  | fuel + 1, page, acc, trace =>
    let trace1 := trace ++ [RemoteCall.paged page 50]
    match ds.listPaged page 50 with
    | ListResult.typeError =>
      let trace2 := trace1 ++ [RemoteCall.unpaged]
      match ds.listAll with
      | ListResult.ok docs => ⟨insertAll acc docs, trace2, false, false⟩
      | ListResult.typeError => ⟨[], trace2, false, true⟩
      | ListResult.err => ⟨[], trace2, false, true⟩
    | ListResult.err => ⟨[], trace1, false, true⟩
    | ListResult.ok docs =>
      if docs.isEmpty then ⟨acc, trace1, false, false⟩
      else
        let acc1 := insertAll acc docs
        if docs.length < 50 then ⟨acc1, trace1, false, false⟩
        else if page + 1 > 1000 then ⟨acc1, trace1, true, false⟩
        else gedLoop ds fuel (page + 1) acc1 trace1

/-- get_existing_documents (lines 120-191 of the source): run the paging loop
from page 1 with page_size 50 over an initially empty dict. -/
def get_existing_documents (ds : Dataset) : GEDResult :=
  gedLoop ds 1000 1 [] []

/-- A local file: its full path (str(file_path)), its base name
(file_path.name), and its byte content; none models a read that raises. -/
structure LocalFile where
  path : String
  name : String
  content : Option (List Nat)
deriving DecidableEq, Repr

/-- A prepared upload payload entry, the dict built at lines 313-316 of the
source: display_name plus blob. -/
structure Document where
  display_name : String
  blob : List Nat
deriving DecidableEq, Repr

/-- Prepared document for a readable file: display_name is the base name,
blob is the bytes read. -/
def fileDoc (f : LocalFile) : Document :=
  ⟨f.name, f.content.getD []⟩

/-- The per-batch preparation loop (lines 308-326 of the source): read each
file of the batch in order; a readable file is appended to batch_documents,
a file whose read raises has its full path appended to the failure list and
the loop continues with the next file. Returns (batch_documents,
read-failure entries) in iteration order. -/
def prepareBatch : List LocalFile → List Document × List String
  | [] => ([], [])
  | f :: rest =>
    let r := prepareBatch rest
    match f.content with
    | some bytes => (⟨f.name, bytes⟩ :: r.1, r.2)
    | none => (r.1, f.path :: r.2)

/-- Contiguous slicing of a list into chunks of b, mirroring the slice
files_to_upload[i:i+batch_size] taken for i = 0, b, 2b, ... at line 300-302.
The fuel argument (the list length at the top entry) is a structural
recursion device; with 0 < b the drop below fuel strictly shrinks the list. -/
def chunkFuel {α : Type} (b : Nat) : Nat → List α → List (List α)
  | 0, _ => []
  | _, [] => []
  | fuel + 1, x :: xs => (x :: xs).take b :: chunkFuel b fuel ((x :: xs).drop b)

/-- The batch partition of the remaining files used by the upload loop. -/
def chunkList {α : Type} (b : Nat) (xs : List α) : List (List α) :=
  chunkFuel b xs.length xs

/-- Accumulated outcome of the batch loop: successful_uploads count, the
failed_uploads list, and the payloads of the upload calls actually issued. -/
structure BatchRes where
  succ : Nat
  failed : List String
  calls : List (List Document)
deriving DecidableEq, Repr

/-- The batch loop body (lines 300-355 of the source) over the already-sliced
batches, carrying the 1-based batch number. For each batch: prepare it; if
batch_documents is nonempty issue the upload call; on success add its size to
successful_uploads, on failure append every prepared display_name to
failed_uploads. Read-failure paths were already appended during preparation.
Failed batches do not stop later batches. -/
def runBatches (ds : Dataset) : List (List LocalFile) → Nat → BatchRes
  | [], _ => ⟨0, [], []⟩
  | batch :: rest, batchNum =>
    let p := prepareBatch batch
    let r := runBatches ds rest (batchNum + 1)
    if p.1.isEmpty then ⟨r.succ, p.2 ++ r.failed, r.calls⟩
    else if ds.uploadOk batchNum then
      ⟨p.1.length + r.succ, p.2 ++ r.failed, p.1 :: r.calls⟩
    else
      ⟨r.succ, p.2 ++ p.1.map Document.display_name ++ r.failed, p.1 :: r.calls⟩

/-- The skip-filter loop (lines 283-290 of the source): a file whose base
name is a key of existing_docs while skip_existing is set goes, as its full
path, to skipped_files; every other file goes to files_to_upload. -/
def splitSkip (skip_existing : Bool) (keys : List String) :
    List LocalFile → List String × List LocalFile
  | [] => ([], [])
  | f :: rest =>
    let r := splitSkip skip_existing keys rest
    if skip_existing && keys.contains f.name then (f.path :: r.1, r.2)
    else (r.1, f :: r.2)

/-- Observable outcome of one upload_files run: the statistics variables of
the source plus the list of upload-call payloads issued and whether the
summary block at lines 361-393 was reached (the early return at line 297
skips it). -/
structure UploadOutcome where
  total_files : Nat
  skipped_files : List String
  files_to_upload : List LocalFile
  successful_uploads : Nat
  failed_uploads : List String
  upload_calls : List (List Document)
  summary_printed : Bool
deriving DecidableEq, Repr

/-- The existing_docs dict used by upload_files: the reconciler result when
skip_existing is set, the empty dict otherwise (lines 276-280). -/
def existingFor (ds : Dataset) (skip_existing : Bool) : List (String × RemoteDoc) :=
  if skip_existing then (get_existing_documents ds).docs else []

/-- upload_files (lines 257-393 of the source): build existing_docs, filter
the input into skipped_files and files_to_upload, return early when nothing
remains to upload, otherwise run the batch loop from batch number 1 and then
print the summary. -/
def upload_files (ds : Dataset) (file_paths : List LocalFile)
    (batch_size : Nat) (skip_existing : Bool) : UploadOutcome :=
  let sp := splitSkip skip_existing (dictKeys (existingFor ds skip_existing)) file_paths
  if sp.2.isEmpty then
    { total_files := file_paths.length
      skipped_files := sp.1
      files_to_upload := sp.2
      successful_uploads := 0
      failed_uploads := []
      upload_calls := []
      summary_printed := false }
  else
    let br := runBatches ds (chunkList batch_size sp.2) 1
    { total_files := file_paths.length
      skipped_files := sp.1
      files_to_upload := sp.2
      successful_uploads := br.succ
      failed_uploads := br.failed
      upload_calls := br.calls
      summary_printed := true }

/-- One remote call made by the dataset-resolution step. -/
inductive RagCall where
  | lookup : String → RagCall
  | create : String → String → String → String → RagCall
deriving DecidableEq, Repr

/-- Behaviour of the RAGFlow client object for dataset resolution: the
list_datasets search by name and the create_dataset call.  The creation
result does not depend on the arguments (they are recorded in the trace);
an error value models the call raising. -/
structure Rag where
  list_datasets : String → ListResult Dataset
  create_dataset : Except Unit Dataset

/-- The description string built for a created dataset at line 110. -/
def autoDesc (dataset_name : String) : String :=
  "通过脚本自动创建的知识库：" ++ dataset_name

/-- get_or_create_dataset (lines 81-118 of the source): look the dataset up
by name; a non-empty result is returned directly; an empty result or an
exception from the lookup both fall through to create_dataset with
chunk_method naive and permission me; a creation failure is re-raised. -/
def get_or_create_dataset (rag : Rag) (dataset_name : String) :
    Except Unit Dataset × List RagCall :=
  match rag.list_datasets dataset_name with
  | ListResult.ok (d :: _) => (Except.ok d, [RagCall.lookup dataset_name])
  | _ =>
    let tr := [RagCall.lookup dataset_name,
      RagCall.create dataset_name (autoDesc dataset_name) "naive" "me"]
    match rag.create_dataset with
    | Except.ok d => (Except.ok d, tr)
    | Except.error _ => (Except.error (), tr)

/-- True when a lookup result models a raised exception. -/
def isExc {α : Type} : ListResult α → Bool
  | ListResult.ok _ => false
  | ListResult.typeError => true
  | ListResult.err => true

/-- True when an Except value models a raised exception. -/
def exceptFailed {α : Type} : Except Unit α → Bool
  | Except.ok _ => false
  | Except.error _ => true

/-- The supported_extensions set of is_supported_file (lines 204-208). -/
def supported_extensions : List String :=
  [".txt", ".md", ".pdf", ".doc", ".docx",
   ".ppt", ".pptx", ".xls", ".xlsx", ".csv",
   ".html", ".htm", ".json", ".xml", ".rtf"]

/-- Path.suffix of a file base name, per pathlib: the substring from the
last dot on, provided that dot is neither the first nor the last character;
otherwise the empty string. -/
def pathSuffix (name : String) : String :=
  let cs := name.toList
  let idxs := (List.range cs.length).filter (fun i => cs.getD i ' ' == '.')
  match idxs.getLast? with
  | none => ""
  | some i => if 0 < i ∧ i + 1 < cs.length then String.mk (cs.drop i) else ""

/-- Character-wise lower-casing of a string. -/
def lowerStr (s : String) : String :=
  String.mk (s.toList.map Char.toLower)

/-- is_supported_file (lines 193-211): the lower-cased extension must belong
to the supported set. -/
def is_supported_file (name : String) : Bool :=
  supported_extensions.contains (lowerStr (pathSuffix name))

/-- The filesystem as seen by one run: whether the source directory exists,
whether it is a directory, and the regular files found under it in traversal
order. -/
structure FS where
  dirExists : Bool
  dirIsDir : Bool
  allFiles : List LocalFile

/-- get_files_from_directory (lines 213-255): raise FileNotFoundError when
the path does not exist, NotADirectoryError when it is not a directory, else
return the supported files in traversal order. -/
def get_files_from_directory (fs : FS) : Except String (List LocalFile) :=
  if !fs.dirExists then Except.error "FileNotFoundError"
  else if !fs.dirIsDir then Except.error "NotADirectoryError"
  else Except.ok (fs.allFiles.filter (fun f => is_supported_file f.name))

/-- Kinds of remote interaction, for stating which calls a run makes. -/
inductive Event where
  | remoteLookup : Event
  | remoteCreate : Event
  | remoteList : Event
  | remoteUpload : Event
  | remoteParse : Event
deriving DecidableEq, Repr

/-- The remote event corresponding to a dataset-resolution call. -/
def ragEvent : RagCall → Event
  | RagCall.lookup _ => Event.remoteLookup
  | RagCall.create _ _ _ _ => Event.remoteCreate

/-- Remote calls made by start_parsing (lines 395-433): one unpaginated
listing; when it returns a non-empty document list, one async parse call;
an exception or an empty list means no parse call. -/
def parseEvents (ds : Dataset) : List Event :=
  Event.remoteList ::
    (match ds.listAll with
     | ListResult.ok docs => if docs.isEmpty then [] else [Event.remoteParse]
     | ListResult.typeError => []
     | ListResult.err => [])

/-- Remote calls made by one upload_files run: the reconciler's listing
calls when skip_existing is set, then one upload event per issued batch
upload call. -/
def uploadEvents (ds : Dataset) (file_paths : List LocalFile)
    (batch_size : Nat) (skip_existing : Bool) : List Event :=
  (if skip_existing then
    (get_existing_documents ds).trace.map (fun _ => Event.remoteList)
  else [])
  ++ (upload_files ds file_paths batch_size skip_existing).upload_calls.map
      (fun _ => Event.remoteUpload)

/-- Command-line arguments relevant to control flow. -/
structure Args where
  dataset_name : String
  batch_size : Nat
  no_parse : Bool
  skip_existing : Bool

/-- The try-block of main (lines 502-551 of the source), returning the exit
code and the remote calls made, in order: resolve or create the dataset
(abort with exit 1 when that raises), then scan the directory (abort with
exit 1 when that raises), return exit 0 early when no supported file was
found, else upload and, unless no_parse, trigger parsing. -/
def main_run (rag : Rag) (fs : FS) (args : Args) : Nat × List Event :=
  let gc := get_or_create_dataset rag args.dataset_name
  let ev0 := gc.2.map ragEvent
  match gc.1 with
  | Except.error _ => (1, ev0)
  | Except.ok ds =>
    match get_files_from_directory fs with
    | Except.error _ => (1, ev0)
    | Except.ok file_paths =>
      if file_paths.isEmpty then (0, ev0)
      else
        let ev1 := uploadEvents ds file_paths args.batch_size args.skip_existing
        let ev2 := if args.no_parse then [] else parseEvents ds
        (0, ev0 ++ ev1 ++ ev2)

/-! Helper lemmas about the batch partition. -/

theorem chunkFuel_nil {α : Type} (b fuel : Nat) : chunkFuel b fuel ([] : List α) = [] := by
  cases fuel <;> rfl

theorem chunkFuel_cons {α : Type} (b fuel : Nat) (x : α) (xs : List α) :
    chunkFuel b (fuel + 1) (x :: xs)
      = (x :: xs).take b :: chunkFuel b fuel ((x :: xs).drop b) := rfl

theorem chunkFuel_ne_nil {α : Type} (b fuel : Nat) (xs : List α)
    (h : xs.length ≤ fuel) (hne : xs ≠ []) : chunkFuel b fuel xs ≠ [] := by
  cases xs with
  | nil => exact absurd rfl hne
  | cons x xs0 =>
    cases fuel with
    | zero => simp at h
    | succ n => simp [chunkFuel_cons]

theorem chunkFuel_flatten {α : Type} (b : Nat) (hb : 0 < b) :
    ∀ (fuel : Nat) (xs : List α), xs.length ≤ fuel → (chunkFuel b fuel xs).flatten = xs := by
  intro fuel
  induction fuel with
  | zero =>
    intro xs h
    have hx : xs = [] := List.eq_nil_of_length_eq_zero (Nat.le_zero.mp h)
    subst hx; rfl
  | succ n ih =>
    intro xs h
    cases xs with
    | nil => rfl
    | cons x xs0 =>
      rw [chunkFuel_cons, List.flatten_cons, ih]
      · exact List.take_append_drop b (x :: xs0)
      · have hlen : ((x :: xs0).drop b).length = (x :: xs0).length - b := List.length_drop b _
        simp only [List.length_cons] at h hlen
        omega

theorem chunkFuel_length {α : Type} (b : Nat) (hb : 0 < b) :
    ∀ (fuel : Nat) (xs : List α), xs.length ≤ fuel → xs ≠ [] →
      (chunkFuel b fuel xs).length = (xs.length - 1) / b + 1 := by
  intro fuel
  induction fuel with
  | zero =>
    intro xs h hne
    exact absurd (List.eq_nil_of_length_eq_zero (Nat.le_zero.mp h)) hne
  | succ n ih =>
    intro xs h hne
    cases xs with
    | nil => exact absurd rfl hne
    | cons x xs0 =>
      rw [chunkFuel_cons, List.length_cons]
      have hlen : ((x :: xs0).drop b).length = (x :: xs0).length - b := List.length_drop b _
      simp only [List.length_cons] at h hlen
      by_cases hd : (x :: xs0).drop b = []
      · rw [hd, chunkFuel_nil]
        have h0 : xs0.length + 1 - b = 0 := by rw [← hlen, hd]; rfl
        have hz : xs0.length / b = 0 := Nat.div_eq_of_lt (by omega)
        simp [hz]
      · rw [ih _ (by omega) hd, hlen]
        have hgt : b + 1 ≤ xs0.length + 1 := by
          by_contra hc
          exact hd (List.eq_nil_of_length_eq_zero (by omega))
        simp only [List.length_cons]
        have he : xs0.length + 1 - 1 = (xs0.length + 1 - b - 1) + b := by omega
        rw [he, Nat.add_div_right _ hb]

theorem chunkFuel_mem {α : Type} (b : Nat) (hb : 0 < b) :
    ∀ (fuel : Nat) (xs : List α) (c : List α), xs.length ≤ fuel →
      c ∈ chunkFuel b fuel xs → c ≠ [] ∧ c.length ≤ b := by
  intro fuel
  induction fuel with
  | zero =>
    intro xs c h hm
    have hx : xs = [] := List.eq_nil_of_length_eq_zero (Nat.le_zero.mp h)
    subst hx; simp [chunkFuel_nil] at hm
  | succ n ih =>
    intro xs c h hm
    cases xs with
    | nil => simp [chunkFuel_nil] at hm
    | cons x xs0 =>
      rw [chunkFuel_cons] at hm
      rcases List.mem_cons.mp hm with hc | hc
      · subst hc
        constructor
        · cases b with
          | zero => omega
          | succ b0 => simp [List.take_cons]
        · exact List.length_take_le _ _
      · have hlen : ((x :: xs0).drop b).length = (x :: xs0).length - b := List.length_drop b _
        simp only [List.length_cons] at h hlen
        exact ih _ _ (by omega) hc

theorem chunkFuel_getLast {α : Type} (b : Nat) (hb : 0 < b) :
    ∀ (fuel : Nat) (xs : List α), xs.length ≤ fuel → xs ≠ [] →
      ((chunkFuel b fuel xs).getLastD []).length
        = if xs.length % b = 0 then b else xs.length % b := by
  intro fuel
  induction fuel with
  | zero =>
    intro xs h hne
    exact absurd (List.eq_nil_of_length_eq_zero (Nat.le_zero.mp h)) hne
  | succ n ih =>
    intro xs h hne
    cases xs with
    | nil => exact absurd rfl hne
    | cons x xs0 =>
      rw [chunkFuel_cons]
      have hlen : ((x :: xs0).drop b).length = (x :: xs0).length - b := List.length_drop b _
      simp only [List.length_cons] at h hlen
      by_cases hd : (x :: xs0).drop b = []
      · have hle : xs0.length + 1 ≤ b := by
          have h0 : xs0.length + 1 - b = 0 := by rw [← hlen, hd]; rfl
          omega
        rw [hd, chunkFuel_nil]
        simp only [List.getLastD_cons, List.getLastD_nil]
        have htk : ((x :: xs0).take b).length = (x :: xs0).length :=
          by rw [List.take_of_length_le (by simp; omega)]
        rw [htk]
        simp only [List.length_cons]
        by_cases heq : xs0.length + 1 = b
        · rw [heq, Nat.mod_self, if_pos rfl]
        · have hlt : xs0.length + 1 < b := by omega
          rw [Nat.mod_eq_of_lt hlt, if_neg (by omega)]
      · have hgt : b + 1 ≤ xs0.length + 1 := by
          by_contra hc
          exact hd (List.eq_nil_of_length_eq_zero (by omega))
        have hrec := ih ((x :: xs0).drop b) (by omega) hd
        cases hc : chunkFuel b n ((x :: xs0).drop b) with
        | nil => exact absurd hc (chunkFuel_ne_nil b n _ (by omega) hd)
        | cons c cs =>
          rw [hc] at hrec
          simp only [List.getLastD_cons]
          simp only [List.getLastD_cons] at hrec
          rw [hrec, hlen]
          simp only [List.length_cons]
          have hmod : (xs0.length + 1) % b = (xs0.length + 1 - b) % b := by
            conv_lhs => rw [show xs0.length + 1 = (xs0.length + 1 - b) + b by omega]
            rw [Nat.add_mod_right]
          rw [hmod]

theorem chunkList_flatten {α : Type} (b : Nat) (hb : 0 < b) (xs : List α) :
    (chunkList b xs).flatten = xs :=
  chunkFuel_flatten b hb xs.length xs (Nat.le_refl _)

theorem chunkList_length {α : Type} (b : Nat) (hb : 0 < b) (xs : List α) (h : xs ≠ []) :
    (chunkList b xs).length = (xs.length - 1) / b + 1 :=
  chunkFuel_length b hb xs.length xs (Nat.le_refl _) h

theorem chunkList_mem {α : Type} (b : Nat) (hb : 0 < b) {xs c : List α}
    (h : c ∈ chunkList b xs) : c ≠ [] ∧ c.length ≤ b :=
  chunkFuel_mem b hb xs.length xs c (Nat.le_refl _) h

theorem chunkList_getLast {α : Type} (b : Nat) (hb : 0 < b) (xs : List α) (h : xs ≠ []) :
    ((chunkList b xs).getLastD []).length = if xs.length % b = 0 then b else xs.length % b :=
  chunkFuel_getLast b hb xs.length xs (Nat.le_refl _) h

/-! Helper lemmas about batch preparation, the skip filter and the batch loop. -/

theorem prepareBatch_docs (batch : List LocalFile) :
    (prepareBatch batch).1 = (batch.filter (fun f => f.content.isSome)).map fileDoc := by
  induction batch with
  | nil => rfl
  | cons f rest ih =>
    cases hf : f.content with
    | some bytes =>
      simp only [prepareBatch, hf, List.filter_cons, Option.isSome_some, if_pos, List.map_cons]
      rw [← ih]
      simp [fileDoc, hf]
    | none =>
      simp only [prepareBatch, hf, List.filter_cons, Option.isSome_none, Bool.false_eq_true,
        if_neg, ite_false]
      exact ih

theorem prepareBatch_failed (batch : List LocalFile) :
    (prepareBatch batch).2
      = (batch.filter (fun f => !f.content.isSome)).map LocalFile.path := by
  induction batch with
  | nil => rfl
  | cons f rest ih =>
    cases hf : f.content with
    | some bytes =>
      simp only [prepareBatch, hf, List.filter_cons, Option.isSome_some, Bool.not_true,
        Bool.false_eq_true, if_neg, ite_false]
      exact ih
    | none =>
      simp only [prepareBatch, hf, List.filter_cons, Option.isSome_none, Bool.not_false,
        if_pos, List.map_cons]
      rw [ih]

theorem prepareBatch_sum (batch : List LocalFile) :
    (prepareBatch batch).1.length + (prepareBatch batch).2.length = batch.length := by
  induction batch with
  | nil => rfl
  | cons f rest ih =>
    cases hf : f.content with
    | some bytes =>
      simp only [prepareBatch, hf, List.length_cons]
      omega
    | none =>
      simp only [prepareBatch, hf, List.length_cons]
      omega

theorem splitSkip_fst (skip : Bool) (keys : List String) (files : List LocalFile) :
    (splitSkip skip keys files).1
      = (files.filter (fun f => skip && keys.contains f.name)).map LocalFile.path := by
  induction files with
  | nil => rfl
  | cons f rest ih =>
    cases hf : (skip && keys.contains f.name) <;>
      (simp only [splitSkip, List.filter_cons, hf]; simp [ih])

theorem splitSkip_snd (skip : Bool) (keys : List String) (files : List LocalFile) :
    (splitSkip skip keys files).2
      = files.filter (fun f => !(skip && keys.contains f.name)) := by
  induction files with
  | nil => rfl
  | cons f rest ih =>
    cases hf : (skip && keys.contains f.name) <;>
      (simp only [splitSkip, List.filter_cons, hf]; simp [ih])

theorem runBatches_sum (ds : Dataset) :
    ∀ (batches : List (List LocalFile)) (start : Nat),
      (runBatches ds batches start).succ + (runBatches ds batches start).failed.length
        = (batches.map List.length).sum := by
  intro batches
  induction batches with
  | nil => intro start; rfl
  | cons batch rest ih =>
    intro start
    have hsum := prepareBatch_sum batch
    simp only [runBatches, List.map_cons, List.sum_cons]
    by_cases h1 : (prepareBatch batch).1.isEmpty
    · have h10 : (prepareBatch batch).1.length = 0 := by
        rw [List.isEmpty_iff] at h1
        simp [h1]
      simp only [h1, if_pos, List.length_append]
      have := ih (start + 1)
      omega
    · simp only [h1, Bool.false_eq_true, if_neg, ite_false]
      by_cases h2 : ds.uploadOk start
      · simp only [h2, if_pos, List.length_append]
        have := ih (start + 1)
        omega
      · simp only [h2, Bool.false_eq_true, if_neg, ite_false, List.length_append,
          List.length_map]
        have := ih (start + 1)
        omega

theorem runBatches_calls (ds : Dataset) :
    ∀ (batches : List (List LocalFile)) (start : Nat),
      (runBatches ds batches start).calls
        = (batches.map (fun batch => (prepareBatch batch).1)).filter
            (fun l => !l.isEmpty) := by
  intro batches
  induction batches with
  | nil => intro start; rfl
  | cons batch rest ih =>
    intro start
    simp only [runBatches, List.map_cons, List.filter_cons]
    cases h1 : (prepareBatch batch).1.isEmpty with
    | true =>
      simp only [h1, Bool.not_true, Bool.false_eq_true, if_pos, ite_false]
      exact ih (start + 1)
    | false =>
      cases h2 : ds.uploadOk start <;>
        simp only [h1, h2, Bool.not_false, Bool.false_eq_true, if_neg, ite_false, ite_true,
          List.cons.injEq, true_and] <;>
        exact ih (start + 1)

theorem runBatches_failed_mem (ds : Dataset) :
    ∀ (batches : List (List LocalFile)) (start : Nat) (batch : List LocalFile),
      batch ∈ batches → ∀ x ∈ (prepareBatch batch).2,
        x ∈ (runBatches ds batches start).failed := by
  intro batches
  induction batches with
  | nil => intro start batch hm; simp at hm
  | cons b0 rest ih =>
    intro start batch hm x hx
    rcases List.mem_cons.mp hm with hb | hb
    · subst hb
      simp only [runBatches]
      by_cases h1 : (prepareBatch batch).1.isEmpty <;>
        [skip; by_cases h2 : ds.uploadOk start] <;>
        simp [h1, List.mem_append, hx] <;>
        simp [h2, List.mem_append, hx]
    · have hrec := ih (start + 1) batch hb x hx
      simp only [runBatches]
      by_cases h1 : (prepareBatch b0).1.isEmpty <;>
        [skip; by_cases h2 : ds.uploadOk start] <;>
        simp [h1, List.mem_append, hrec] <;>
        simp [h2, List.mem_append, hrec]

theorem runBatches_all_ok (ds : Dataset) :
    ∀ (batches : List (List LocalFile)) (start : Nat),
      (∀ f ∈ batches.flatten, f.content.isSome = true) →
      (∀ i, start ≤ i → ds.uploadOk i = true) →
      ([] ∉ batches) →
      (runBatches ds batches start).succ = batches.flatten.length
        ∧ (runBatches ds batches start).failed = []
        ∧ (runBatches ds batches start).calls.length = batches.length := by
  intro batches
  induction batches with
  | nil => intro start _ _ _; exact ⟨rfl, rfl, rfl⟩
  | cons batch rest ih =>
    intro start hread hok hne
    have hrb : ∀ f ∈ batch, f.content.isSome = true := by
      intro f hf
      exact hread f (List.mem_flatten.mpr ⟨batch, List.mem_cons_self _ _, hf⟩)
    have hdocs : (prepareBatch batch).1 = batch.map fileDoc := by
      rw [prepareBatch_docs, List.filter_eq_self.mpr hrb]
    have hfail : (prepareBatch batch).2 = [] := by
      rw [prepareBatch_failed]
      have : batch.filter (fun f => !f.content.isSome) = [] := by
        rw [List.filter_eq_nil_iff]
        intro f hf
        simp [hrb f hf]
      rw [this]; rfl
    have hbne : batch ≠ [] := fun h => hne (h ▸ List.mem_cons_self _ _)
    have hpne : ¬ (prepareBatch batch).1.isEmpty := by
      rw [hdocs, List.isEmpty_iff]
      intro h
      exact hbne (List.map_eq_nil_iff.mp h)
    have hrec := ih (start + 1) (fun f hf => hread f (by simp [List.mem_flatten] at hf ⊢; exact Or.inr hf))
      (fun i hi => hok i (by omega)) (fun h => hne (List.mem_cons_of_mem _ h))
    simp only [runBatches, hpne, Bool.false_eq_true, if_neg, ite_false,
      hok start (Nat.le_refl _), if_pos, ite_true]
    refine ⟨?_, ?_, ?_⟩
    · rw [hrec.1, hdocs, List.flatten_cons, List.length_append, List.length_map]
    · rw [hfail, hrec.2.1]; rfl
    · simp [hrec.2.2]

theorem runBatches_one_fail (ds : Dataset) (j : Nat) :
    ∀ (batches : List (List LocalFile)) (start : Nat),
      (∀ f ∈ batches.flatten, f.content.isSome = true) →
      (∀ i, start ≤ i → (ds.uploadOk i = false ↔ i = j)) →
      start ≤ j → j < start + batches.length →
      ([] ∉ batches) →
      (runBatches ds batches start).succ + (batches.getD (j - start) []).length
          = batches.flatten.length
        ∧ (runBatches ds batches start).failed
            = (batches.getD (j - start) []).map LocalFile.name
        ∧ (runBatches ds batches start).calls.length = batches.length := by
  intro batches
  induction batches with
  | nil => intro start _ _ hj1 hj2 _; simp at hj2; omega
  | cons batch rest ih =>
    intro start hread horacle hj1 hj2 hne
    have hrb : ∀ f ∈ batch, f.content.isSome = true := by
      intro f hf
      exact hread f (List.mem_flatten.mpr ⟨batch, List.mem_cons_self _ _, hf⟩)
    have hdocs : (prepareBatch batch).1 = batch.map fileDoc := by
      rw [prepareBatch_docs, List.filter_eq_self.mpr hrb]
    have hfail : (prepareBatch batch).2 = [] := by
      rw [prepareBatch_failed]
      have : batch.filter (fun f => !f.content.isSome) = [] := by
        rw [List.filter_eq_nil_iff]
        intro f hf
        simp [hrb f hf]
      rw [this]; rfl
    have hbne : batch ≠ [] := fun h => hne (h ▸ List.mem_cons_self _ _)
    have hpne : ¬ (prepareBatch batch).1.isEmpty := by
      rw [hdocs, List.isEmpty_iff]
      intro h
      exact hbne (List.map_eq_nil_iff.mp h)
    have hreadr : ∀ f ∈ rest.flatten, f.content.isSome = true := by
      intro f hf
      exact hread f (by simp [List.mem_flatten] at hf ⊢; exact Or.inr hf)
    have hner : [] ∉ rest := fun h => hne (List.mem_cons_of_mem _ h)
    by_cases hsj : j = start
    · subst hsj
      have hfailhead : ds.uploadOk j = false := (horacle j (Nat.le_refl _)).mpr rfl
      have hokr : ∀ i, j + 1 ≤ i → ds.uploadOk i = true := by
        intro i hi
        have := horacle i (by omega)
        cases hu : ds.uploadOk i with
        | true => rfl
        | false => exact absurd (this.mp hu) (by omega)
      have hrec := runBatches_all_ok ds rest (j + 1) hreadr hokr hner
      simp only [runBatches, hpne, Bool.false_eq_true, if_neg, ite_false,
        hfailhead, ite_true]
      have hget : ((batch :: rest).getD (j - j) []) = batch := by
        simp [Nat.sub_self]
      refine ⟨?_, ?_, ?_⟩
      · rw [hget, hrec.1, List.flatten_cons, List.length_append]
        omega
      · rw [hget, hfail, hrec.2.1, hdocs]
        simp only [List.nil_append, List.append_nil, List.map_map]
        rfl
      · simp [hrec.2.2]
    · have hokhead : ds.uploadOk start = true := by
        have := horacle start (Nat.le_refl _)
        cases hu : ds.uploadOk start with
        | true => rfl
        | false => exact absurd (this.mp hu) (fun he => hsj he.symm)
      have hrec := ih (start + 1) hreadr (fun i hi => horacle i (by omega))
        (by omega) (by simp at hj2 ⊢; omega) hner
      simp only [runBatches, hpne, Bool.false_eq_true, if_neg, ite_false,
        hokhead, if_pos, ite_true]
      have hget : ((batch :: rest).getD (j - start) []) = rest.getD (j - (start + 1)) [] := by
        have hd : j - start = (j - (start + 1)) + 1 := by omega
        rw [hd, List.getD_cons_succ]
      refine ⟨?_, ?_, ?_⟩
      · rw [hget, List.flatten_cons, List.length_append, hdocs, List.length_map]
        have := hrec.1
        omega
      · rw [hget, hfail, hrec.2.1]; rfl
      · simp [hrec.2.2]

/-! Helper lemmas about upload_files itself. -/

theorem upload_files_empty (ds : Dataset) (files : List LocalFile) (b : Nat) (skip : Bool)
    (h : (splitSkip skip (dictKeys (existingFor ds skip)) files).2.isEmpty) :
    upload_files ds files b skip
      = { total_files := files.length
          skipped_files := (splitSkip skip (dictKeys (existingFor ds skip)) files).1
          files_to_upload := (splitSkip skip (dictKeys (existingFor ds skip)) files).2
          successful_uploads := 0
          failed_uploads := []
          upload_calls := []
          summary_printed := false } := by
  unfold upload_files
  rw [if_pos h]

theorem upload_files_pos (ds : Dataset) (files : List LocalFile) (b : Nat) (skip : Bool)
    (h : ¬ (splitSkip skip (dictKeys (existingFor ds skip)) files).2.isEmpty) :
    upload_files ds files b skip
      = { total_files := files.length
          skipped_files := (splitSkip skip (dictKeys (existingFor ds skip)) files).1
          files_to_upload := (splitSkip skip (dictKeys (existingFor ds skip)) files).2
          successful_uploads :=
            (runBatches ds (chunkList b
              (splitSkip skip (dictKeys (existingFor ds skip)) files).2) 1).succ
          failed_uploads :=
            (runBatches ds (chunkList b
              (splitSkip skip (dictKeys (existingFor ds skip)) files).2) 1).failed
          upload_calls :=
            (runBatches ds (chunkList b
              (splitSkip skip (dictKeys (existingFor ds skip)) files).2) 1).calls
          summary_printed := true } := by
  unfold upload_files
  rw [if_neg h]

theorem upload_files_files_to_upload (ds : Dataset) (files : List LocalFile)
    (b : Nat) (skip : Bool) :
    (upload_files ds files b skip).files_to_upload
      = (splitSkip skip (dictKeys (existingFor ds skip)) files).2 := by
  by_cases h : (splitSkip skip (dictKeys (existingFor ds skip)) files).2.isEmpty
  · rw [upload_files_empty ds files b skip h]
  · rw [upload_files_pos ds files b skip h]

theorem upload_files_skipped (ds : Dataset) (files : List LocalFile)
    (b : Nat) (skip : Bool) :
    (upload_files ds files b skip).skipped_files
      = (splitSkip skip (dictKeys (existingFor ds skip)) files).1 := by
  by_cases h : (splitSkip skip (dictKeys (existingFor ds skip)) files).2.isEmpty
  · rw [upload_files_empty ds files b skip h]
  · rw [upload_files_pos ds files b skip h]

theorem upload_files_total (ds : Dataset) (files : List LocalFile)
    (b : Nat) (skip : Bool) :
    (upload_files ds files b skip).total_files = files.length := by
  by_cases h : (splitSkip skip (dictKeys (existingFor ds skip)) files).2.isEmpty
  · rw [upload_files_empty ds files b skip h]
  · rw [upload_files_pos ds files b skip h]

/-! Helper lemmas about the dedup dict and the page sequence. -/

theorem dictKeys_insert_mem (a : List (String × RemoteDoc)) (k : String) (v : RemoteDoc)
    (k' : String) (h : k' ∈ dictKeys a ∨ k' = k) :
    k' ∈ dictKeys (dictInsert a k v) := by
  unfold dictInsert
  by_cases hany : a.any (fun p => p.1 == k)
  · rw [if_pos hany]
    rcases h with hmem | heq
    · rcases List.mem_map.mp hmem with ⟨p, hp, hpk⟩
      by_cases hpk2 : p.1 == k
      · have hpk3 : p.1 = k := by simpa using hpk2
        refine List.mem_map.mpr ⟨(k, v), List.mem_map.mpr ⟨p, hp, ?_⟩, ?_⟩
        · rw [if_pos hpk2]
        · simp [← hpk, hpk3]
      · refine List.mem_map.mpr ⟨p, List.mem_map.mpr ⟨p, hp, ?_⟩, hpk⟩
        rw [if_neg hpk2]
    · subst heq
      rcases List.any_eq_true.mp hany with ⟨p, hp, hpk⟩
      refine List.mem_map.mpr ⟨(k', v), List.mem_map.mpr ⟨p, hp, ?_⟩, rfl⟩
      rw [if_pos hpk]
  · rw [if_neg hany]
    unfold dictKeys
    rw [List.map_append]
    rcases h with hmem | heq
    · exact List.mem_append.mpr (Or.inl hmem)
    · exact List.mem_append.mpr (Or.inr (by simp [heq]))

theorem insertAll_cons (acc : List (String × RemoteDoc)) (d : RemoteDoc)
    (rest : List RemoteDoc) :
    insertAll acc (d :: rest) = insertAll (dictInsert acc (docName d) d) rest := rfl

theorem insertAll_mem_acc (l : List RemoteDoc) :
    ∀ (acc : List (String × RemoteDoc)) (k : String),
      k ∈ dictKeys acc → k ∈ dictKeys (insertAll acc l) := by
  induction l with
  | nil => intro acc k h; exact h
  | cons d rest ih =>
    intro acc k h
    rw [insertAll_cons]
    exact ih _ k (dictKeys_insert_mem acc (docName d) d k (Or.inl h))

theorem insertAll_mem_self (l : List RemoteDoc) :
    ∀ (acc : List (String × RemoteDoc)) (d : RemoteDoc), d ∈ l →
      docName d ∈ dictKeys (insertAll acc l) := by
  induction l with
  | nil => intro acc d h; simp at h
  | cons d0 rest ih =>
    intro acc d h
    rw [insertAll_cons]
    rcases List.mem_cons.mp h with hd | hd
    · subst hd
      exact insertAll_mem_acc rest _ _
        (dictKeys_insert_mem acc (docName d) d (docName d) (Or.inr rfl))
    · exact ih _ d hd

/-- The sequence of paginated calls for pages 1 through k, page size 50. -/
def pageSeq (k : Nat) : List RemoteCall :=
  (List.range k).map (fun i => RemoteCall.paged (i + 1) 50)

/-- Whether a remote call is a paginated listing call. -/
def isPaged : RemoteCall → Bool
  | RemoteCall.paged _ _ => true
  | RemoteCall.unpaged => false

/-- Number of paginated listing calls in a trace. -/
def pagedCount (t : List RemoteCall) : Nat :=
  (t.filter isPaged).length

theorem pageSeq_zero : pageSeq 0 = [] := rfl

theorem pageSeq_snoc (n : Nat) :
    pageSeq (n + 1) = pageSeq n ++ [RemoteCall.paged (n + 1) 50] := by
  unfold pageSeq
  rw [List.range_succ, List.map_append]
  rfl

theorem pageSeq_length (n : Nat) : (pageSeq n).length = n := by
  simp [pageSeq]

theorem pagedCount_pageSeq (n : Nat) : pagedCount (pageSeq n) = n := by
  unfold pagedCount pageSeq
  rw [List.filter_map]
  have : (isPaged ∘ fun i => RemoteCall.paged (i + 1) 50) = fun _ => true := by
    funext i; rfl
  rw [this, List.filter_true, List.length_map, List.length_range]

theorem pagedCount_append (t1 t2 : List RemoteCall) :
    pagedCount (t1 ++ t2) = pagedCount t1 + pagedCount t2 := by
  unfold pagedCount
  rw [List.filter_append, List.length_append]

theorem pagedCount_unpaged_single : pagedCount [RemoteCall.unpaged] = 0 := rfl

theorem gedLoop_spec (ds : Dataset) :
    ∀ (fuel page : Nat) (acc : List (String × RemoteDoc)) (r : GEDResult),
      gedLoop ds fuel page acc (pageSeq (page - 1)) = r →
      page + fuel = 1001 → 1 ≤ fuel → fuel ≤ 1000 →
      ∃ k, page ≤ k ∧ k ≤ 1000
        ∧ pagedCount r.trace = k
        ∧ (r.trace = pageSeq k ∨ r.trace = pageSeq k ++ [RemoteCall.unpaged])
        ∧ (r.warned = true → k = 1000 ∧ r.erred = false ∧ r.trace = pageSeq 1000)
        ∧ (∀ l, r.trace = pageSeq k ++ [RemoteCall.unpaged] →
            ds.listAll = ListResult.ok l → ∀ d ∈ l, docName d ∈ dictKeys r.docs) := by
  intro fuel
  induction fuel with
  | zero => intro page acc r _ hpage hfuel _; omega
  | succ n ih =>
    intro page acc r hr hpage hfuel hfuel2
    have hpage1 : 1 ≤ page := by omega
    have hpagele : page ≤ 1000 := by omega
    have hstep : page - 1 + 1 = page := by omega
    have hseq : pageSeq (page - 1) ++ [RemoteCall.paged page 50] = pageSeq page := by
      conv_rhs => rw [← hstep]
      rw [pageSeq_snoc, hstep]
    have hcnt : pagedCount (pageSeq page) = page := pagedCount_pageSeq page
    have hcnt2 : pagedCount (pageSeq page ++ [RemoteCall.unpaged]) = page := by
      rw [pagedCount_append, pagedCount_pageSeq, pagedCount_unpaged_single]
      omega
    have hnotun : pageSeq page ≠ pageSeq page ++ [RemoteCall.unpaged] := by
      intro hcontra
      have := congrArg List.length hcontra
      simp [pageSeq_length] at this
    cases hp : ds.listPaged page 50 with
    | typeError =>
      cases hla : ds.listAll with
      | ok l =>
        have hr2 : r = ⟨insertAll acc l, pageSeq page ++ [RemoteCall.unpaged], false, false⟩ := by
          rw [← hr]
          simp only [gedLoop, hp, hla, hseq]
        subst hr2
        refine ⟨page, Nat.le_refl _, hpagele, hcnt2, Or.inr rfl, by simp, ?_⟩
        intro l2 _ hla2 d hd
        injection hla2 with hll
        subst hll
        exact insertAll_mem_self l acc d hd
      | typeError =>
        have hr2 : r = ⟨[], pageSeq page ++ [RemoteCall.unpaged], false, true⟩ := by
          rw [← hr]
          simp only [gedLoop, hp, hla, hseq]
        subst hr2
        refine ⟨page, Nat.le_refl _, hpagele, hcnt2, Or.inr rfl, by simp, ?_⟩
        intro l2 _ hla2
        simp at hla2
      | err =>
        have hr2 : r = ⟨[], pageSeq page ++ [RemoteCall.unpaged], false, true⟩ := by
          rw [← hr]
          simp only [gedLoop, hp, hla, hseq]
        subst hr2
        refine ⟨page, Nat.le_refl _, hpagele, hcnt2, Or.inr rfl, by simp, ?_⟩
        intro l2 _ hla2
        simp at hla2
    | err =>
      have hr2 : r = ⟨[], pageSeq page, false, true⟩ := by
        rw [← hr]
        simp only [gedLoop, hp, hseq]
      subst hr2
      refine ⟨page, Nat.le_refl _, hpagele, hcnt, Or.inl rfl, by simp, ?_⟩
      intro l2 htr
      exact absurd htr hnotun
    | ok docs =>
      by_cases hemp : docs.isEmpty
      · have hr2 : r = ⟨acc, pageSeq page, false, false⟩ := by
          rw [← hr]
          simp only [gedLoop, hp, hseq, hemp, if_pos, ite_true]
        subst hr2
        refine ⟨page, Nat.le_refl _, hpagele, hcnt, Or.inl rfl, by simp, ?_⟩
        intro l2 htr
        exact absurd htr hnotun
      · by_cases hlt : docs.length < 50
        · have hr2 : r = ⟨insertAll acc docs, pageSeq page, false, false⟩ := by
            rw [← hr]
            simp only [gedLoop, hp, hseq, hemp, hlt, Bool.false_eq_true, if_neg,
              ite_false, if_pos, ite_true]
          subst hr2
          refine ⟨page, Nat.le_refl _, hpagele, hcnt, Or.inl rfl, by simp, ?_⟩
          intro l2 htr
          exact absurd htr hnotun
        · by_cases hpg : page + 1 > 1000
          · have hpeq : page = 1000 := by omega
            have hr2 : r = ⟨insertAll acc docs, pageSeq page, true, false⟩ := by
              rw [← hr]
              simp only [gedLoop, hp, hseq, hemp, hlt, hpg, Bool.false_eq_true, if_neg,
                ite_false, if_pos, ite_true]
            subst hr2
            refine ⟨page, Nat.le_refl _, hpagele, hcnt, Or.inl rfl, ?_, ?_⟩
            · intro _
              exact ⟨hpeq, rfl, by rw [hpeq]⟩
            · intro l2 htr
              exact absurd htr hnotun
          · have hrec : gedLoop ds n (page + 1) (insertAll acc docs)
                (pageSeq (page + 1 - 1)) = r := by
              rw [← hr]
              have hs2 : pageSeq (page + 1 - 1) = pageSeq page := by
                congr 1
              simp only [gedLoop, hp, hseq, hemp, hlt, hpg, Bool.false_eq_true, if_neg,
                ite_false, hs2]
            have := ih (page + 1) (insertAll acc docs) r hrec (by omega) (by omega) (by omega)
            rcases this with ⟨k, hk1, hk2, hk3, hk4, hk5, hk6⟩
            exact ⟨k, by omega, hk2, hk3, hk4, hk5, hk6⟩

theorem gedLoop_err_docs (ds : Dataset) :
    ∀ (fuel page : Nat) (acc : List (String × RemoteDoc)) (trace : List RemoteCall),
      (gedLoop ds fuel page acc trace).erred = true →
      (gedLoop ds fuel page acc trace).docs = [] := by
  intro fuel
  induction fuel with
  | zero => intro page acc trace h; simp [gedLoop] at h
  | succ n ih =>
    intro page acc trace h
    cases hp : ds.listPaged page 50 with
    | typeError =>
      cases hla : ds.listAll with
      | ok l =>
        simp only [gedLoop, hp, hla] at h
        exact absurd h (by simp)
      | typeError => simp only [gedLoop, hp, hla] at h ⊢
      | err => simp only [gedLoop, hp, hla] at h ⊢
    | err => simp only [gedLoop, hp] at h ⊢
    | ok docs =>
      by_cases hemp : docs.isEmpty
      · simp only [gedLoop, hp, hemp, if_pos, ite_true] at h
        exact absurd h (by simp)
      · by_cases hlt : docs.length < 50
        · simp only [gedLoop, hp, hemp, hlt, Bool.false_eq_true, if_neg, ite_false,
            if_pos, ite_true] at h
        · by_cases hpg : page + 1 > 1000
          · simp only [gedLoop, hp, hemp, hlt, hpg, Bool.false_eq_true, if_neg,
              ite_false, if_pos, ite_true] at h
          · simp only [gedLoop, hp, hemp, hlt, hpg, Bool.false_eq_true, if_neg,
              ite_false] at h ⊢
            exact ih _ _ _ h

theorem filter_length_partition {α : Type} (p : α → Bool) (l : List α) :
    (l.filter p).length + (l.filter (fun a => !(p a))).length = l.length := by
  induction l with
  | nil => rfl
  | cons a t ih =>
    cases hp : p a <;> simp only [List.filter_cons, hp, Bool.not_true, Bool.not_false,
      Bool.false_eq_true, if_neg, ite_false, ite_true, List.length_cons] <;> omega

theorem getLastD_map {α β : Type} (f : α → β) :
    ∀ (L : List α) (x : α), (L.map f).getLastD (f x) = f (L.getLastD x) := by
  intro L
  induction L with
  | nil => intro x; rfl
  | cons a t ih =>
    intro x
    rw [List.map_cons, List.getLastD_cons, List.getLastD_cons]
    exact ih a

/-! The claim theorems. -/

/-- C1: after every run of upload_files (with a positive batch size, as the
command line requires), the statistics satisfy
successful_uploads + length failed_uploads = length files_to_upload and
length files_to_upload + length skipped_files = total_files, where
files_to_upload is the list remaining after skip-filtering. -/
theorem c1_statistics_invariant (ds : Dataset) (files : List LocalFile) (b : Nat)
    (skip : Bool) (hb : 0 < b) :
    (upload_files ds files b skip).successful_uploads
        + (upload_files ds files b skip).failed_uploads.length
      = (upload_files ds files b skip).files_to_upload.length
    ∧ (upload_files ds files b skip).files_to_upload.length
        + (upload_files ds files b skip).skipped_files.length
      = (upload_files ds files b skip).total_files := by
  have hpart : ((splitSkip skip (dictKeys (existingFor ds skip)) files).2).length
      + ((splitSkip skip (dictKeys (existingFor ds skip)) files).1).length
      = files.length := by
    rw [splitSkip_fst, splitSkip_snd, List.length_map]
    have := filter_length_partition
      (fun f => skip && (dictKeys (existingFor ds skip)).contains f.name) files
    omega
  by_cases h : (splitSkip skip (dictKeys (existingFor ds skip)) files).2.isEmpty
  · rw [upload_files_empty ds files b skip h]
    have h2 : (splitSkip skip (dictKeys (existingFor ds skip)) files).2 = [] :=
      List.isEmpty_iff.mp h
    constructor
    · simp [h2]
    · exact hpart
  · rw [upload_files_pos ds files b skip h]
    constructor
    · have hs := runBatches_sum ds
        (chunkList b (splitSkip skip (dictKeys (existingFor ds skip)) files).2) 1
      have hflat := chunkList_flatten b hb
        (splitSkip skip (dictKeys (existingFor ds skip)) files).2
      have hlen : ((chunkList b
            (splitSkip skip (dictKeys (existingFor ds skip)) files).2).map
            List.length).sum
          = ((splitSkip skip (dictKeys (existingFor ds skip)) files).2).length := by
        rw [← List.length_flatten, hflat]
      simp only
      omega
    · exact hpart

/-- C1 witness at a concrete input: two readable files, batch size 1, one
of the two upload calls failing. -/
def c1ds : Dataset :=
  ⟨fun _ _ => ListResult.ok [], ListResult.ok [], fun i => !(i == 2), true⟩

def c1f1 : LocalFile := ⟨"/w/a.md", "a.md", some [1]⟩

def c1f2 : LocalFile := ⟨"/w/b.md", "b.md", some [2]⟩

theorem c1_statistics_invariant_witness :
    0 < 1
    ∧ ((upload_files c1ds [c1f1, c1f2] 1 false).successful_uploads
          + (upload_files c1ds [c1f1, c1f2] 1 false).failed_uploads.length
        = (upload_files c1ds [c1f1, c1f2] 1 false).files_to_upload.length
      ∧ (upload_files c1ds [c1f1, c1f2] 1 false).files_to_upload.length
          + (upload_files c1ds [c1f1, c1f2] 1 false).skipped_files.length
        = (upload_files c1ds [c1f1, c1f2] 1 false).total_files) :=
  ⟨by decide, c1_statistics_invariant c1ds [c1f1, c1f2] 1 false (by decide)⟩

/-- C4: a file is skipped, and withheld from upload, exactly when
skip_existing is set and its base name is a key of the reconciled inventory
dict; the test uses only the base name, never content or path, and with
skip_existing unset nothing is skipped. -/
theorem c4_dedup_by_name (ds : Dataset) (files : List LocalFile) (b : Nat) :
    (upload_files ds files b true).skipped_files
        = (files.filter (fun f =>
            (dictKeys (get_existing_documents ds).docs).contains f.name)).map
            LocalFile.path
    ∧ (upload_files ds files b true).files_to_upload
        = files.filter (fun f =>
            !(dictKeys (get_existing_documents ds).docs).contains f.name)
    ∧ (upload_files ds files b false).skipped_files = []
    ∧ (upload_files ds files b false).files_to_upload = files := by
  refine ⟨?_, ?_, ?_, ?_⟩
  · rw [upload_files_skipped, splitSkip_fst]
    rfl
  · rw [upload_files_files_to_upload, splitSkip_snd]
    rfl
  · rw [upload_files_skipped, splitSkip_fst]
    simp
  · rw [upload_files_files_to_upload, splitSkip_snd]
    simp

/-- C6 counterexample: a run in which every discovered file is skipped.
The claim says the summary block still runs; in the code the early return
at line 297 skips it, so summary_printed is false (and no upload call is
made, files_to_upload being empty). -/
def c6doc : RemoteDoc := ⟨"r1", some "a.md", none⟩

def c6ds : Dataset :=
  ⟨fun page _ => if page == 1 then ListResult.ok [c6doc] else ListResult.ok [],
   ListResult.ok [c6doc], fun _ => true, true⟩

def c6f : LocalFile := ⟨"/w/a.md", "a.md", some [7]⟩

theorem c6_counterexample :
    (upload_files c6ds [c6f] 5 true).files_to_upload = []
    ∧ (upload_files c6ds [c6f] 5 true).upload_calls = []
    ∧ (upload_files c6ds [c6f] 5 true).summary_printed = false := by
  decide

/-- C6 amended: when no file remains after skip-filtering, upload_files
issues no upload call and reports zero successes and failures, but it
returns early, before the summary block, so no summary is printed. -/
theorem c6_empty_noop_no_summary (ds : Dataset) (files : List LocalFile)
    (b : Nat) (skip : Bool)
    (h : (upload_files ds files b skip).files_to_upload = []) :
    (upload_files ds files b skip).upload_calls = []
    ∧ (upload_files ds files b skip).summary_printed = false
    ∧ (upload_files ds files b skip).successful_uploads = 0
    ∧ (upload_files ds files b skip).failed_uploads = [] := by
  rw [upload_files_files_to_upload] at h
  have he : (splitSkip skip (dictKeys (existingFor ds skip)) files).2.isEmpty :=
    List.isEmpty_iff.mpr h
  rw [upload_files_empty ds files b skip he]
  exact ⟨rfl, rfl, rfl, rfl⟩

theorem c6_empty_noop_no_summary_witness :
    (upload_files c6ds [c6f] 6 true).files_to_upload = []
    ∧ (upload_files c6ds [c6f] 6 true).upload_calls = []
      ∧ (upload_files c6ds [c6f] 6 true).summary_printed = false
      ∧ (upload_files c6ds [c6f] 6 true).successful_uploads = 0
      ∧ (upload_files c6ds [c6f] 6 true).failed_uploads = [] :=
  ⟨by decide, c6_empty_noop_no_summary c6ds [c6f] 6 true (by decide)⟩

/-- C8: whenever the reconciler run ends in its outer exception handler
(any raise other than the TypeError fallback path), get_existing_documents
returns the empty dict instead of propagating, and the caller with
skip_existing set then skips nothing and uploads every file. -/
theorem c8_error_returns_empty (ds : Dataset)
    (h : (get_existing_documents ds).erred = true) :
    (get_existing_documents ds).docs = []
    ∧ ∀ (files : List LocalFile) (b : Nat),
        (upload_files ds files b true).skipped_files = []
        ∧ (upload_files ds files b true).files_to_upload = files := by
  have hd : (get_existing_documents ds).docs = [] := gedLoop_err_docs ds 1000 1 [] [] h
  refine ⟨hd, ?_⟩
  intro files b
  constructor
  · rw [upload_files_skipped, splitSkip_fst]
    have hf : files.filter
        (fun f => true && (dictKeys (existingFor ds true)).contains f.name) = [] := by
      apply List.filter_eq_nil_iff.mpr
      intro f _
      simp [existingFor, hd, dictKeys]
    rw [hf]
    rfl
  · rw [upload_files_files_to_upload, splitSkip_snd]
    apply List.filter_eq_self.mpr
    intro f _
    simp [existingFor, hd, dictKeys]

def c8ds : Dataset :=
  ⟨fun _ _ => ListResult.err, ListResult.ok [], fun _ => true, true⟩

def c8f : LocalFile := ⟨"/w/x.md", "x.md", some [9]⟩

theorem c8_error_returns_empty_witness :
    (get_existing_documents c8ds).erred = true
    ∧ ((get_existing_documents c8ds).docs = []
        ∧ (upload_files c8ds [c8f] 5 true).skipped_files = []
        ∧ (upload_files c8ds [c8f] 5 true).files_to_upload = [c8f]) := by
  have hmain := c8_error_returns_empty c8ds (by decide)
  exact ⟨by decide, hmain.1, (hmain.2 [c8f] 5).1, (hmain.2 [c8f] 5).2⟩

/-- C2: with a positive batch size and a non-empty all-readable remainder
after skip-filtering, upload_files issues exactly ceil(n / b) upload calls,
the concatenation of the call payloads lists the remaining files in their
original order, every call carries at most b files, and the last call
carries n mod b files (b when b divides n). -/
theorem c2_batch_partition (ds : Dataset) (files : List LocalFile) (b : Nat)
    (skip : Bool) (hb : 0 < b)
    (hne : (upload_files ds files b skip).files_to_upload ≠ [])
    (hread : ∀ f ∈ (upload_files ds files b skip).files_to_upload,
      f.content.isSome = true) :
    (upload_files ds files b skip).upload_calls.length
        = ((upload_files ds files b skip).files_to_upload.length + b - 1) / b
    ∧ ((upload_files ds files b skip).upload_calls.map
          (fun c => c.map Document.display_name)).flatten
        = (upload_files ds files b skip).files_to_upload.map LocalFile.name
    ∧ (∀ c ∈ (upload_files ds files b skip).upload_calls, c.length ≤ b)
    ∧ ((upload_files ds files b skip).upload_calls.getLastD []).length
        = (if (upload_files ds files b skip).files_to_upload.length % b = 0 then b
           else (upload_files ds files b skip).files_to_upload.length % b) := by
  rw [upload_files_files_to_upload] at hne hread
  have hpos : ¬ (splitSkip skip (dictKeys (existingFor ds skip)) files).2.isEmpty := by
    rw [List.isEmpty_iff]
    exact hne
  rw [upload_files_pos ds files b skip hpos]
  simp only
  set fu := (splitSkip skip (dictKeys (existingFor ds skip)) files).2 with hfu
  have hflat : (chunkList b fu).flatten = fu := chunkList_flatten b hb fu
  have hreadb : ∀ batch ∈ chunkList b fu, ∀ f ∈ batch, f.content.isSome = true := by
    intro batch hbatch f hf
    exact hread f (by rw [← hflat]; exact List.mem_flatten.mpr ⟨batch, hbatch, hf⟩)
  have hpay : ∀ batch ∈ chunkList b fu,
      (prepareBatch batch).1 = batch.map fileDoc := by
    intro batch hbatch
    rw [prepareBatch_docs, List.filter_eq_self.mpr (hreadb batch hbatch)]
  have hcalls : (runBatches ds (chunkList b fu) 1).calls
      = (chunkList b fu).map (fun batch => batch.map fileDoc) := by
    rw [runBatches_calls]
    rw [List.map_congr_left hpay]
    apply List.filter_eq_self.mpr
    intro l hl
    rcases List.mem_map.mp hl with ⟨batch, hbatch, hbl⟩
    have hbne : batch ≠ [] := (chunkList_mem b hb hbatch).1
    rw [← hbl]
    simp [List.isEmpty_iff, hbne]
  refine ⟨?_, ?_, ?_, ?_⟩
  · rw [hcalls, List.length_map, chunkList_length b hb fu hne]
    have hn : 1 ≤ fu.length := List.length_pos.mpr hne
    have he : fu.length + b - 1 = (fu.length - 1) + b := by omega
    rw [he, Nat.add_div_right _ hb]
  · rw [hcalls, List.map_map]
    have hcomp : ((fun c => List.map Document.display_name c)
          ∘ fun batch => List.map fileDoc batch)
        = fun batch => batch.map LocalFile.name := by
      funext batch
      show List.map Document.display_name (List.map fileDoc batch) = _
      rw [List.map_map]
      rfl
    rw [hcomp, ← List.map_flatten, hflat]
  · intro c hc
    rw [hcalls] at hc
    rcases List.mem_map.mp hc with ⟨batch, hbatch, hbc⟩
    rw [← hbc, List.length_map]
    exact (chunkList_mem b hb hbatch).2
  · rw [hcalls]
    have hgl := getLastD_map (fun batch => List.map fileDoc batch) (chunkList b fu) []
    simp only [List.map_nil] at hgl
    rw [hgl, List.length_map]
    exact chunkList_getLast b hb fu hne

def c2ds : Dataset :=
  ⟨fun _ _ => ListResult.ok [], ListResult.ok [], fun _ => true, true⟩

def c2f1 : LocalFile := ⟨"/w/a.md", "a.md", some [1]⟩

def c2f2 : LocalFile := ⟨"/w/b.md", "b.md", some [2]⟩

def c2f3 : LocalFile := ⟨"/w/c.md", "c.md", some [3]⟩

theorem c2_batch_partition_witness :
    ((upload_files c2ds [c2f1, c2f2, c2f3] 2 false).files_to_upload ≠ []
      ∧ ∀ f ∈ (upload_files c2ds [c2f1, c2f2, c2f3] 2 false).files_to_upload,
          f.content.isSome = true)
    ∧ ((upload_files c2ds [c2f1, c2f2, c2f3] 2 false).upload_calls.length
        = ((upload_files c2ds [c2f1, c2f2, c2f3] 2 false).files_to_upload.length + 2 - 1) / 2
      ∧ ((upload_files c2ds [c2f1, c2f2, c2f3] 2 false).upload_calls.map
            (fun c => c.map Document.display_name)).flatten
          = (upload_files c2ds [c2f1, c2f2, c2f3] 2 false).files_to_upload.map LocalFile.name
      ∧ (∀ c ∈ (upload_files c2ds [c2f1, c2f2, c2f3] 2 false).upload_calls, c.length ≤ 2)
      ∧ ((upload_files c2ds [c2f1, c2f2, c2f3] 2 false).upload_calls.getLastD []).length
          = (if (upload_files c2ds [c2f1, c2f2, c2f3] 2 false).files_to_upload.length % 2 = 0
             then 2
             else (upload_files c2ds [c2f1, c2f2, c2f3] 2 false).files_to_upload.length % 2)) :=
  ⟨⟨by decide, by decide⟩,
    c2_batch_partition c2ds [c2f1, c2f2, c2f3] 2 false (by decide) (by decide) (by decide)⟩

/-- C3: when the upload call of exactly one batch (the j-th, all files
readable) raises, precisely the files of that batch are recorded as failed,
the success count covers exactly the files of the other batches, and every
batch is still attempted (one upload call per batch is issued). -/
theorem c3_batch_fault_isolation (ds : Dataset) (files : List LocalFile) (b : Nat)
    (skip : Bool) (j : Nat) (hb : 0 < b)
    (hread : ∀ f ∈ (upload_files ds files b skip).files_to_upload,
      f.content.isSome = true)
    (hj1 : 1 ≤ j)
    (hjk : j ≤ (chunkList b (upload_files ds files b skip).files_to_upload).length)
    (horacle : ∀ i, 1 ≤ i → (ds.uploadOk i = false ↔ i = j)) :
    (upload_files ds files b skip).upload_calls.length
        = (chunkList b (upload_files ds files b skip).files_to_upload).length
    ∧ (upload_files ds files b skip).failed_uploads
        = ((chunkList b (upload_files ds files b skip).files_to_upload).getD
            (j - 1) []).map LocalFile.name
    ∧ (upload_files ds files b skip).successful_uploads
        + ((chunkList b (upload_files ds files b skip).files_to_upload).getD
            (j - 1) []).length
      = (upload_files ds files b skip).files_to_upload.length := by
  rw [upload_files_files_to_upload] at hread hjk ⊢
  have hne : (splitSkip skip (dictKeys (existingFor ds skip)) files).2 ≠ [] := by
    intro h
    rw [h] at hjk
    have : (chunkList b ([] : List LocalFile)).length = 0 := rfl
    omega
  have hpos : ¬ (splitSkip skip (dictKeys (existingFor ds skip)) files).2.isEmpty := by
    rw [List.isEmpty_iff]
    exact hne
  rw [upload_files_pos ds files b skip hpos]
  simp only
  set fu := (splitSkip skip (dictKeys (existingFor ds skip)) files).2 with hfu
  have hflat : (chunkList b fu).flatten = fu := chunkList_flatten b hb fu
  have hreadb : ∀ f ∈ (chunkList b fu).flatten, f.content.isSome = true := by
    rw [hflat]
    exact hread
  have hnomem : ([] : List LocalFile) ∉ chunkList b fu := by
    intro hmem
    exact (chunkList_mem b hb hmem).1 rfl
  have hof := runBatches_one_fail ds j (chunkList b fu) 1 hreadb
    (fun i hi => horacle i hi) hj1 (by omega) hnomem
  refine ⟨hof.2.2, ?_, ?_⟩
  · rw [hof.2.1]
  · have h1 := hof.1
    rw [hflat] at h1
    exact h1

def c3ds : Dataset :=
  ⟨fun _ _ => ListResult.ok [], ListResult.ok [], fun i => !(i == 2), true⟩

def c3f1 : LocalFile := ⟨"/w/a.md", "a.md", some [1]⟩

def c3f2 : LocalFile := ⟨"/w/b.md", "b.md", some [2]⟩

def c3f3 : LocalFile := ⟨"/w/c.md", "c.md", some [3]⟩

theorem c3_batch_fault_isolation_witness :
    ((∀ f ∈ (upload_files c3ds [c3f1, c3f2, c3f3] 1 false).files_to_upload,
        f.content.isSome = true)
      ∧ 1 ≤ 2
      ∧ 2 ≤ (chunkList 1 (upload_files c3ds [c3f1, c3f2, c3f3] 1 false).files_to_upload).length)
    ∧ ((upload_files c3ds [c3f1, c3f2, c3f3] 1 false).upload_calls.length
        = (chunkList 1 (upload_files c3ds [c3f1, c3f2, c3f3] 1 false).files_to_upload).length
      ∧ (upload_files c3ds [c3f1, c3f2, c3f3] 1 false).failed_uploads
          = ((chunkList 1 (upload_files c3ds [c3f1, c3f2, c3f3] 1 false).files_to_upload).getD
              (2 - 1) []).map LocalFile.name
      ∧ (upload_files c3ds [c3f1, c3f2, c3f3] 1 false).successful_uploads
          + ((chunkList 1 (upload_files c3ds [c3f1, c3f2, c3f3] 1 false).files_to_upload).getD
              (2 - 1) []).length
        = (upload_files c3ds [c3f1, c3f2, c3f3] 1 false).files_to_upload.length) := by
  have horacle : ∀ i, 1 ≤ i → (c3ds.uploadOk i = false ↔ i = 2) := by
    intro i _
    show (!(i == 2)) = false ↔ i = 2
    simp
  exact ⟨⟨by decide, by decide, by decide⟩,
    c3_batch_fault_isolation c3ds [c3f1, c3f2, c3f3] 1 false 2 (by decide)
      (by decide) (by decide) (by decide) horacle⟩

/-- C9: an unreadable file in a batch is recorded as failed by its path and
is left out of the batch payload, while every readable file of the batch is
still prepared; when at least one prepared file remains, that payload is
issued as the batch upload call. -/
theorem c9_read_failure_isolated (ds : Dataset) (files : List LocalFile) (b : Nat)
    (skip : Bool) (hb : 0 < b) :
    ∀ batch ∈ chunkList b (upload_files ds files b skip).files_to_upload,
      ∀ f ∈ batch, f.content = none →
        f.path ∈ (upload_files ds files b skip).failed_uploads
        ∧ (prepareBatch batch).1
            = (batch.filter (fun g => g.content.isSome)).map fileDoc
        ∧ ((prepareBatch batch).1 ≠ [] →
            (prepareBatch batch).1 ∈ (upload_files ds files b skip).upload_calls) := by
  rw [upload_files_files_to_upload]
  intro batch hbatch f hf hc
  have hne : (splitSkip skip (dictKeys (existingFor ds skip)) files).2 ≠ [] := by
    intro h
    rw [h] at hbatch
    have : chunkList b ([] : List LocalFile) = [] := rfl
    rw [this] at hbatch
    simp at hbatch
  have hpos : ¬ (splitSkip skip (dictKeys (existingFor ds skip)) files).2.isEmpty := by
    rw [List.isEmpty_iff]
    exact hne
  rw [upload_files_pos ds files b skip hpos]
  simp only
  refine ⟨?_, prepareBatch_docs batch, ?_⟩
  · apply runBatches_failed_mem ds _ 1 batch hbatch
    rw [prepareBatch_failed]
    apply List.mem_map_of_mem
    exact List.mem_filter.mpr ⟨hf, by simp [hc]⟩
  · intro hp
    rw [runBatches_calls]
    apply List.mem_filter.mpr
    refine ⟨List.mem_map_of_mem _ hbatch, ?_⟩
    simp [List.isEmpty_iff, hp]

def c9ds : Dataset :=
  ⟨fun _ _ => ListResult.ok [], ListResult.ok [], fun _ => true, true⟩

def c9bad : LocalFile := ⟨"/w/bad.md", "bad.md", none⟩

def c9good : LocalFile := ⟨"/w/good.md", "good.md", some [4]⟩

theorem c9_read_failure_isolated_witness :
    ([c9bad, c9good] ∈ chunkList 2
        (upload_files c9ds [c9bad, c9good] 2 false).files_to_upload
      ∧ c9bad.content = none)
    ∧ c9bad.path ∈ (upload_files c9ds [c9bad, c9good] 2 false).failed_uploads
    ∧ (prepareBatch [c9bad, c9good]).1
        = ([c9bad, c9good].filter (fun g => g.content.isSome)).map fileDoc
    ∧ (prepareBatch [c9bad, c9good]).1
        ∈ (upload_files c9ds [c9bad, c9good] 2 false).upload_calls := by
  have h := c9_read_failure_isolated c9ds [c9bad, c9good] 2 false (by decide)
    [c9bad, c9good] (by decide) c9bad (by decide) (by decide)
  exact ⟨⟨by decide, by decide⟩, h.1, h.2.1, h.2.2 (by decide)⟩

/-- C7: the reconciler requests pages of size 50 starting at page 1 and
incrementing (its trace is the page sequence 1..k, possibly followed by one
final unpaginated call), makes at most 1000 paginated calls, and when the
page-limit warning fires it has made exactly 1000 of them and still returns
normally (no error path); on the TypeError fallback exactly one unpaginated
call ends the trace (so the paginated shape is never retried) and every
document of the unpaginated result is keyed in the returned dict. -/
theorem c7_pagination_policy (ds : Dataset) :
    pagedCount (get_existing_documents ds).trace ≤ 1000
    ∧ ((get_existing_documents ds).trace
          = pageSeq (pagedCount (get_existing_documents ds).trace)
        ∨ (get_existing_documents ds).trace
            = pageSeq (pagedCount (get_existing_documents ds).trace)
              ++ [RemoteCall.unpaged])
    ∧ ((get_existing_documents ds).warned = true →
        pagedCount (get_existing_documents ds).trace = 1000
        ∧ (get_existing_documents ds).erred = false)
    ∧ (∀ l, (get_existing_documents ds).trace
          = pageSeq (pagedCount (get_existing_documents ds).trace)
            ++ [RemoteCall.unpaged] →
        ds.listAll = ListResult.ok l →
        ∀ d ∈ l, docName d ∈ dictKeys (get_existing_documents ds).docs) := by
  obtain ⟨k, hk1, hk2, hk3, hk4, hk5, hk6⟩ :=
    gedLoop_spec ds 1000 1 [] (get_existing_documents ds) rfl (by omega) (by omega)
      (by omega)
  rw [hk3]
  exact ⟨hk2, hk4, fun hw => ⟨(hk5 hw).1, (hk5 hw).2.1⟩, hk6⟩

def c7doc : RemoteDoc := ⟨"i9", none, none⟩

def c7ds : Dataset :=
  ⟨fun _ _ => ListResult.typeError, ListResult.ok [c7doc], fun _ => true, true⟩

theorem c7_pagination_policy_witness :
    (get_existing_documents c7ds).trace
        = pageSeq (pagedCount (get_existing_documents c7ds).trace)
          ++ [RemoteCall.unpaged]
    ∧ docName c7doc ∈ dictKeys (get_existing_documents c7ds).docs :=
  ⟨by decide,
    (c7_pagination_policy c7ds).2.2.2 [c7doc] (by decide) rfl c7doc
      (List.mem_singleton.mpr rfl)⟩

/-- C10: when the dataset lookup raises, get_or_create_dataset swallows the
error and issues the creation call with chunk_method naive and permission me;
the whole function then raises exactly when that creation call raises. -/
theorem c10_lookup_error_creates (rag : Rag) (dataset_name : String)
    (h : isExc (rag.list_datasets dataset_name) = true) :
    (get_or_create_dataset rag dataset_name).2
        = [RagCall.lookup dataset_name,
           RagCall.create dataset_name (autoDesc dataset_name) "naive" "me"]
    ∧ exceptFailed (get_or_create_dataset rag dataset_name).1
        = exceptFailed rag.create_dataset := by
  cases hlk : rag.list_datasets dataset_name with
  | ok l =>
    rw [hlk] at h
    simp [isExc] at h
  | typeError =>
    unfold get_or_create_dataset
    rw [hlk]
    cases hc : rag.create_dataset <;> simp [exceptFailed]
  | err =>
    unfold get_or_create_dataset
    rw [hlk]
    cases hc : rag.create_dataset <;> simp [exceptFailed]

def c10ds : Dataset :=
  ⟨fun _ _ => ListResult.ok [], ListResult.ok [], fun _ => true, true⟩

def c10rag : Rag := ⟨fun _ => ListResult.err, Except.ok c10ds⟩

theorem c10_lookup_error_creates_witness :
    isExc (c10rag.list_datasets "kb") = true
    ∧ ((get_or_create_dataset c10rag "kb").2
        = [RagCall.lookup "kb", RagCall.create "kb" (autoDesc "kb") "naive" "me"]
      ∧ exceptFailed (get_or_create_dataset c10rag "kb").1
          = exceptFailed c10rag.create_dataset) :=
  ⟨rfl, c10_lookup_error_creates c10rag "kb" rfl⟩

/-- Behaviour of main when the source directory is missing: the run exits
with code 1 and its remote-call list is exactly the dataset-resolution
calls, whichever they were. -/
theorem main_run_dir_missing (rag : Rag) (fs : FS) (args : Args)
    (h : fs.dirExists = false) :
    main_run rag fs args
      = (1, (get_or_create_dataset rag args.dataset_name).2.map ragEvent) := by
  have hgf : get_files_from_directory fs = Except.error "FileNotFoundError" := by
    unfold get_files_from_directory
    rw [h]
    rfl
  unfold main_run
  cases hgc : (get_or_create_dataset rag args.dataset_name).1 <;> simp [hgc, hgf]

/-- C5 counterexample: with the directory missing the run does abort with
exit code 1, but the remote dataset lookup has already been issued, so the
claim that no remote call of any kind is made is false. -/
def c5ds : Dataset :=
  ⟨fun _ _ => ListResult.ok [], ListResult.ok [], fun _ => true, true⟩

def c5rag : Rag := ⟨fun _ => ListResult.ok [c5ds], Except.ok c5ds⟩

def c5fs : FS := ⟨false, true, []⟩

def c5args : Args := ⟨"kb", 5, false, false⟩

theorem c5_counterexample :
    c5fs.dirExists = false
    ∧ (main_run c5rag c5fs c5args).1 = 1
    ∧ (main_run c5rag c5fs c5args).2 = [Event.remoteLookup] := by
  decide

/-- C5 amended: a missing source directory still aborts the run with exit
code 1 before any document listing, upload or parse-trigger call, but the
collection lookup (and possibly creation) calls have already been made,
because main resolves the dataset before scanning the directory. -/
theorem c5_missing_dir_aborts (rag : Rag) (fs : FS) (args : Args)
    (h : fs.dirExists = false) :
    (main_run rag fs args).1 = 1
    ∧ ∀ e ∈ (main_run rag fs args).2,
        e = Event.remoteLookup ∨ e = Event.remoteCreate := by
  rw [main_run_dir_missing rag fs args h]
  refine ⟨rfl, ?_⟩
  intro e he
  rcases List.mem_map.mp he with ⟨c, _, hce⟩
  rw [← hce]
  cases c with
  | lookup n => exact Or.inl rfl
  | create a b c d => exact Or.inr rfl

theorem c5_missing_dir_aborts_witness :
    c5fs.dirExists = false ∧ (main_run c5rag c5fs c5args).1 = 1 :=
  ⟨rfl, (c5_missing_dir_aborts c5rag c5fs c5args rfl).1⟩
